import Mathlib

/-!
Verification development for `series2/iadc/iadc_single_low_current` of the
`peripheral_examples` repository (single source file
`src/main_single_low_current.c`).

The program is straight-line register-configuration code with three busy-wait
loops (two button reads, two oscillator-status waits) and one interrupt
handler.  We embed it at two levels:

* an event-trace semantics of `main` (the sequence of peripheral operations it
  performs, parameterised by the values returned by the hardware reads in the
  wait loops), used for the temporal / ordering claims, and
* a device-state semantics (a record of the peripheral and memory state the
  program touches, with each called routine a state transformer), used for the
  frame and configuration claims.

Vendor SDK (emlib) routines are not part of the repository; where a claim
depends on their behaviour the model is explicitly marked
`Modelled from the spec:` in its doc comment.
-/

/-- Number of IADC samples to capture (`#define NUM_SAMPLES 1024`). -/
def NUM_SAMPLES : Nat := 1024

/-- Push-buttons are active-low (`#define PB_PRESSED (0)`). -/
def PB_PRESSED : Nat := 0

/-- IADC timer cycles (`#define TIMER_CYCLES 10000`, 100 samples/second). -/
def TIMER_CYCLES : Nat := 10000

/-- GPIO pin modes used by the program. -/
inductive GpioMode
  | disabled
  | inputPullFilter
  | pushPull
  deriving DecidableEq, Repr

/-- GPIO ports used by the program. -/
inductive GpioPort
  | portB
  | portC
  | portD
  deriving DecidableEq, Repr

/-- Clock-tree branches the program selects a source for. -/
inductive Clock
  | sysclk
  | iadcclk
  | rtccclk
  deriving DecidableEq, Repr

/-- Oscillators / clock sources the program selects. -/
inductive ClockSel
  | hfrcoem23
  | fsrco
  | lfrco
  | lfxo
  deriving DecidableEq, Repr

/-- IADC command-register commands (the program issues `iadcCmdEnableTimer`
and `iadcCmdStopSingle`). -/
inductive IadcCmd
  | enableTimer
  | disableTimer
  | startSingle
  | stopSingle
  deriving DecidableEq, Repr

/-- Peripherals whose enable bit the clock-disable helpers clear via
`EN_CLR`. -/
inductive Periph
  | usart0
  | usart1
  | usart2
  | timer0
  | timer1
  | timer2
  | timer3
  | acmp0
  | acmp1
  | i2c0
  | i2c1
  | gpcrc
  | rtcc
  | wdog0
  | wdog1
  | letimer0
  | burtc
  deriving DecidableEq, Repr

/-- Abstract events: one per hardware-visible operation the program performs,
in program order.  Reads of the PB0 pin are recorded with the value read;
oscillator-status reads have no side effect and are not recorded. -/
inductive Event
  | chipInit
  | pinModeSet (port : GpioPort) (pin : Nat) (mode : GpioMode) (out : Nat)
  | buttonRead (v : Nat)
  | em23Init
  | hfxoInit
  | hfrcoBandSet
  | iadcReset
  | clockSelectSet (clk : Clock) (sel : ClockSel)
  | iadcInit
  | iadcInitSingle
  | ldmaInit
  | ldmaStartTransfer (ch : Nat)
  | iadcCommand (c : IadcCmd)
  | periphDisable (p : Periph)
  | rtccInit (presc : Nat) (wrapCCV1 : Bool)
  | ramPowerDown
  | enterEM2
  | ldmaIntClear (flags : Nat)
  | gpioPinOutSet (port : GpioPort) (pin : Nat)
  | halt
  deriving DecidableEq, Repr

/-- Whether an event is a read of the PB0 push button. -/
def Event.isButtonRead : Event → Bool
  | .buttonRead _ => true
  | _ => false

/-- First wait loop of `main`:
`while (GPIO_PinInGet(gpioPortD, 2) != PB_PRESSED);`.
The argument is the sequence of values the reads of port D pin 2 return; the
result is `some (reads, rest)` when the loop terminates, where `reads` are the
values consumed (the last one being the pressed read `0`) and `rest` the
unconsumed readings, and `none` when the supplied readings are exhausted. -/
def waitForPress : List Nat → Option (List Nat × List Nat)
  | [] => none
  | v :: rest =>
      if v ≠ PB_PRESSED then
        (waitForPress rest).map (fun p => (v :: p.1, p.2))
      else
        some ([v], rest)

/-- Second wait loop of `main`:
`while (GPIO_PinInGet(gpioPortD, 2) == PB_PRESSED);`.
Consumes readings while they equal `PB_PRESSED`; the last consumed reading is
the first released (nonzero) one. -/
def waitForRelease : List Nat → Option (List Nat × List Nat)
  | [] => none
  | v :: rest =>
      if v = PB_PRESSED then
        (waitForRelease rest).map (fun p => (v :: p.1, p.2))
      else
        some ([v], rest)

/-- Wait loop of `disableHFClocks`:
`while (((HFRCO0->STATUS & ENS) != 0U) || ((HFXO0->STATUS & ENS) != 0U));`.
Each list element is one iteration's pair of (already masked) status reads;
the loop exits on the first reading with both zero. -/
def waitHFStopped : List (Nat × Nat) → Option (List (Nat × Nat))
  | [] => none
  | s :: rest =>
      if s.1 ≠ 0 ∨ s.2 ≠ 0 then waitHFStopped rest else some rest

/-- Wait loop of `disableLFClocks`:
`while ((LFRCO->STATUS != 0U) && (LFXO->STATUS != 0U));`.
Each list element is one iteration's pair (LFRCO->STATUS, LFXO->STATUS); the
loop exits on the first reading where the conjunction fails, and that exit
reading is returned together with the unconsumed readings. -/
def waitLFStopped : List (Nat × Nat) → Option ((Nat × Nat) × List (Nat × Nat))
  | [] => none
  | s :: rest =>
      if s.1 ≠ 0 ∧ s.2 ≠ 0 then waitLFStopped rest else some (s, rest)

theorem waitForPress_spec (l : List Nat) (r rest : List Nat)
    (h : waitForPress l = some (r, rest)) :
    ∃ pre, r = pre ++ [0] ∧ (∀ v ∈ pre, v ≠ 0) ∧ l = r ++ rest := by
  induction l generalizing r rest with
  | nil => exact absurd h (by simp [waitForPress])
  | cons v t ih =>
      by_cases hv : v = PB_PRESSED
      · have hcond : ¬ (v ≠ PB_PRESSED) := by simpa using hv
        rw [waitForPress, if_neg hcond] at h
        have hp : ([v], t) = (r, rest) := Option.some.inj h
        have h1 : [v] = r := congrArg Prod.fst hp
        have h2 : t = rest := congrArg Prod.snd hp
        refine ⟨[], ?_, ?_, ?_⟩
        · rw [← h1, hv]; rfl
        · intro u hu; exact absurd hu (List.not_mem_nil u)
        · rw [← h1, ← h2]; rfl
      · rw [waitForPress, if_pos hv] at h
        obtain ⟨⟨r0, rest0⟩, hrec, heq⟩ := Option.map_eq_some'.mp h
        have h1 : v :: r0 = r := congrArg Prod.fst heq
        have h2 : rest0 = rest := congrArg Prod.snd heq
        obtain ⟨pre, hpre, hall, hsplit⟩ := ih r0 rest0 hrec
        refine ⟨v :: pre, ?_, ?_, ?_⟩
        · rw [← h1, hpre]; rfl
        · intro u hu
          rcases List.mem_cons.mp hu with huv | hup
          · rw [huv]; simpa [PB_PRESSED] using hv
          · exact hall u hup
        · rw [← h1]
          simp only [List.cons_append]
          rw [hsplit, h2]

theorem waitForRelease_spec (l : List Nat) (r rest : List Nat)
    (h : waitForRelease l = some (r, rest)) :
    ∃ pre w, r = pre ++ [w] ∧ w ≠ 0 ∧ (∀ v ∈ pre, v = 0) ∧ l = r ++ rest := by
  induction l generalizing r rest with
  | nil => exact absurd h (by simp [waitForRelease])
  | cons v t ih =>
      by_cases hv : v = PB_PRESSED
      · rw [waitForRelease, if_pos hv] at h
        obtain ⟨⟨r0, rest0⟩, hrec, heq⟩ := Option.map_eq_some'.mp h
        have h1 : v :: r0 = r := congrArg Prod.fst heq
        have h2 : rest0 = rest := congrArg Prod.snd heq
        obtain ⟨pre, w, hpre, hw, hall, hsplit⟩ := ih r0 rest0 hrec
        refine ⟨v :: pre, w, ?_, hw, ?_, ?_⟩
        · rw [← h1, hpre]; rfl
        · intro u hu
          rcases List.mem_cons.mp hu with huv | hup
          · rw [huv, hv]; rfl
          · exact hall u hup
        · rw [← h1]
          simp only [List.cons_append]
          rw [hsplit, h2]
      · rw [waitForRelease, if_neg hv] at h
        have hp : ([v], t) = (r, rest) := Option.some.inj h
        have h1 : [v] = r := congrArg Prod.fst hp
        have h2 : t = rest := congrArg Prod.snd hp
        refine ⟨[], v, ?_, by simpa [PB_PRESSED] using hv, ?_, ?_⟩
        · rw [← h1]; rfl
        · intro u hu; exact absurd hu (List.not_mem_nil u)
        · rw [← h1, ← h2]; rfl

/-- LDMA interrupt-flag bit for channel 0 done (`LDMA_IF_DONE0`, bit 0;
the program starts its transfer on channel 0). -/
def LDMA_IF_DONE0 : Nat := 1

/-- Events of `initIADC` (lines 150-204): reset the IADC, select HFRCOEM23 as
the IADC clock while in EM2, then `IADC_init` and `IADC_initSingle` with the
configured init structs. -/
def initIADC_events : List Event :=
  [Event.iadcReset,
   Event.clockSelectSet Clock.iadcclk ClockSel.hfrcoem23,
   Event.iadcInit,
   Event.iadcInitSingle]

/-- Events of `initLDMA` (lines 215-249): `LDMA_Init` with the default
configuration, then `LDMA_StartTransfer` on channel 0 (building the global
`descriptor` is a plain memory write, modelled separately as
`initLDMA_descriptor`). -/
def initLDMA_events : List Event :=
  [Event.ldmaInit, Event.ldmaStartTransfer 0]

/-- Events of `LDMA_IRQHandler` (lines 254-264): clear the DONE0 interrupt
flag, issue `iadcCmdStopSingle` to the IADC, set GPIO port B pin 1. -/
def LDMA_IRQHandler_events : List Event :=
  [Event.ldmaIntClear LDMA_IF_DONE0,
   Event.iadcCommand IadcCmd.stopSingle,
   Event.gpioPinOutSet GpioPort.portB 1]

/-- The twelve high-frequency peripherals `disableHFClocks` disables via
`EN_CLR`, in source order (lines 272-283). -/
def hfPeriphs : List Periph :=
  [Periph.usart0, Periph.usart1, Periph.usart2,
   Periph.timer0, Periph.timer1, Periph.timer2, Periph.timer3,
   Periph.acmp0, Periph.acmp1, Periph.i2c0, Periph.i2c1, Periph.gpcrc]

/-- The five low-frequency peripherals `disableLFClocks` disables via
`EN_CLR`, in source order (lines 298-302). -/
def lfPeriphs : List Periph :=
  [Periph.rtcc, Periph.wdog0, Periph.wdog1, Periph.letimer0, Periph.burtc]

/-- Events of `disableHFClocks` (lines 269-290): the twelve `EN_CLR` writes,
then switching SYSCLK to FSRCO; the status wait loop only reads. -/
def disableHFClocks_events : List Event :=
  hfPeriphs.map Event.periphDisable ++
    [Event.clockSelectSet Clock.sysclk ClockSel.fsrco]

/-- Events of `disableLFClocks` (lines 295-306): the five `EN_CLR` writes;
the status wait loop only reads. -/
def disableLFClocks_events : List Event :=
  lfPeriphs.map Event.periphDisable

/-- Events of `disableClocks` (lines 311-318). -/
def disableClocks_events : List Event :=
  disableHFClocks_events ++ disableLFClocks_events

/-- Events of `em_EM2_RTCC osc powerdownRam` (lines 339-361): disable clocks,
route `osc` to the RTCC clock tree, initialize the RTCC with prescaler 256 and
wrap-on-CCV1, conditionally power down RAM, then enter EM2. -/
def em_EM2_RTCC_events (osc : ClockSel) (powerdownRam : Bool) : List Event :=
  disableClocks_events ++
    [Event.clockSelectSet Clock.rtccclk osc, Event.rtccInit 256 true] ++
    (if powerdownRam then [Event.ramPowerDown] else []) ++
    [Event.enterEM2]

/-- Events of `main` after the PB0 pin has been disabled (lines 386-406):
configure PB1 as push-pull output, EM23/HFXO init, set the HFRCOEM23 band,
`initIADC`, `initLDMA`, enable the IADC timer, then
`em_EM2_RTCC(cmuSelect_LFRCO, false)`. -/
def afterDisableEvents : List Event :=
  [Event.pinModeSet GpioPort.portB 1 GpioMode.pushPull 0,
   Event.em23Init, Event.hfxoInit, Event.hfrcoBandSet] ++
    initIADC_events ++ initLDMA_events ++
    [Event.iadcCommand IadcCmd.enableTimer] ++
    em_EM2_RTCC_events ClockSel.lfrco false

/-- Events of `main` after the PB0 wait loops (lines 383-406): first the PB0
pin is disabled (line 383), then everything in `afterDisableEvents`. -/
def afterButtonEvents : List Event :=
  Event.pinModeSet GpioPort.portD 2 GpioMode.disabled 1 :: afterDisableEvents

/-- Events of `main` up to and including entering EM2 (lines 366-406),
parameterised by the PB0 readings `btn` and the oscillator status readings
`hf` (HFRCO0/HFXO0, read in `disableHFClocks`) and `lf` (LFRCO/LFXO, read in
`disableLFClocks`).  Returns `none` when one of the four busy-wait loops does
not terminate on the supplied readings.  The oscillator-status waits occur
inside `em_EM2_RTCC` and produce no events. -/
def mainPreEM2 (btn : List Nat) (hf lf : List (Nat × Nat)) :
    Option (List Event) :=
  (waitForPress btn).bind (fun p1 =>
    (waitForRelease p1.2).bind (fun p2 =>
      (waitHFStopped hf).bind (fun _ =>
        (waitLFStopped lf).map (fun _ =>
          [Event.chipInit,
           Event.pinModeSet GpioPort.portD 2 GpioMode.inputPullFilter 1]
          ++ (p1.1 ++ p2.1).map Event.buttonRead ++ afterButtonEvents))))

/-- The complete run of the program in the documented execution: the CPU
sleeps in EM2 until the LDMA completion interrupt fires (file header: "After
NUM_SAMPLES conversions the LDMA will trigger an interrupt from EM2 and turn
on LED1"), `LDMA_IRQHandler` runs, `em_EM2_RTCC` returns and `main` reaches
its final `while(1);`, recorded as the terminal `halt` event. -/
def fullTrace (btn : List Nat) (hf lf : List (Nat × Nat)) :
    Option (List Event) :=
  (mainPreEM2 btn hf lf).map
    (fun tr => tr ++ LDMA_IRQHandler_events ++ [Event.halt])

theorem fullTrace_eq (btn : List Nat) (hf lf : List (Nat × Nat))
    (tr : List Event) (h : fullTrace btn hf lf = some tr) :
    ∃ r1 rest1 r2 rest2,
      waitForPress btn = some (r1, rest1) ∧
      waitForRelease rest1 = some (r2, rest2) ∧
      tr = [Event.chipInit,
            Event.pinModeSet GpioPort.portD 2 GpioMode.inputPullFilter 1]
           ++ (r1 ++ r2).map Event.buttonRead ++ afterButtonEvents
           ++ LDMA_IRQHandler_events ++ [Event.halt] := by
  obtain ⟨tr0, h0, htr⟩ := Option.map_eq_some'.mp h
  rw [mainPreEM2] at h0
  obtain ⟨⟨r1, rest1⟩, hp, h1⟩ := Option.bind_eq_some.mp h0
  obtain ⟨⟨r2, rest2⟩, hr, h2⟩ := Option.bind_eq_some.mp h1
  obtain ⟨u, hhf, h3⟩ := Option.bind_eq_some.mp h2
  obtain ⟨w, hlf, h4⟩ := Option.map_eq_some'.mp h3
  refine ⟨r1, rest1, r2, rest2, hp, hr, ?_⟩
  rw [← htr, ← h4]

/-- The device and program state the source touches: the two GPIO pins it
configures, the clock-tree selections, the IADC configuration and run state,
the LDMA channel, the global `descriptor` destination, peripheral enable
bits, the RTCC, RAM (the address space containing `singleBuffer`) and the
energy mode.  RTCC's enable bit is tracked in `rtccEn`; the enable bits of
the other peripherals the clock-disable helpers touch are in `periphEn`. -/
structure Device where
  pinD2Mode : GpioMode
  pinD2Dout : Nat
  pinB1Mode : GpioMode
  pinB1Out : Bool
  sysclkSel : ClockSel
  iadcClkSel : ClockSel
  rtccClkSel : ClockSel
  iadcTimerCycles : Nat
  iadcTimerEnabled : Bool
  iadcSingleActive : Bool
  ldmaIF : Nat
  ldmaStarted : Bool
  periphEn : Periph → Bool
  rtccEn : Bool
  rtccPresc : Nat
  rtccWrapCCV1 : Bool
  ramRetained : Bool
  ram : Nat → Nat
  emLevel : Nat

/-- A concrete post-reset device state, used to instantiate theorems with
hypotheses at a concrete input. -/
def resetDevice : Device where
  pinD2Mode := GpioMode.disabled
  pinD2Dout := 0
  pinB1Mode := GpioMode.disabled
  pinB1Out := false
  sysclkSel := ClockSel.fsrco
  iadcClkSel := ClockSel.fsrco
  rtccClkSel := ClockSel.lfrco
  iadcTimerCycles := 0
  iadcTimerEnabled := false
  iadcSingleActive := false
  ldmaIF := 0
  ldmaStarted := false
  periphEn := fun _ => true
  rtccEn := true
  rtccPresc := 0
  rtccWrapCCV1 := false
  ramRetained := true
  ram := fun _ => 0
  emLevel := 0

/-- Modelled from the spec: emlib `GPIO_PinOutSet` (vendor SDK, not in the
repository) drives the given pin's output high; only the pins the program
uses are tracked. -/
def GPIO_PinOutSet (port : GpioPort) (pin : Nat) (s : Device) : Device :=
  if port = GpioPort.portB ∧ pin = 1 then { s with pinB1Out := true } else s

/-- Modelled from the spec: emlib `LDMA_IntClear` (vendor SDK, not in the
repository) writes `flags` to the interrupt-flag clear register, clearing
exactly the flag bits set in `flags`. -/
def LDMA_IntClear (flags : Nat) (s : Device) : Device :=
  { s with ldmaIF := Nat.ldiff s.ldmaIF flags }

/-- Modelled from the spec: emlib `IADC_command` (vendor SDK, not in the
repository) writes one command to the IADC command register;
`iadcCmdEnableTimer` enables the conversion-triggering timer and
`iadcCmdStopSingle` stops single conversions ("Stop the IADC" per the
source comment at line 259). -/
def IADC_command (c : IadcCmd) (s : Device) : Device :=
  match c with
  | IadcCmd.enableTimer => { s with iadcTimerEnabled := true }
  | IadcCmd.disableTimer => { s with iadcTimerEnabled := false }
  | IadcCmd.startSingle => { s with iadcSingleActive := true }
  | IadcCmd.stopSingle => { s with iadcSingleActive := false }

/-- `LDMA_IRQHandler` (lines 254-264): clear the DONE0 flag, stop the IADC,
set GPIO port B pin 1. -/
def LDMA_IRQHandler (s : Device) : Device :=
  GPIO_PinOutSet GpioPort.portB 1
    (IADC_command IadcCmd.stopSingle
      (LDMA_IntClear LDMA_IF_DONE0 s))

/-- Modelled from the spec: emlib `CMU_ClockSelectSet` (vendor SDK, not in
the repository) selects the source `sel` for the clock-tree branch `clk`. -/
def CMU_ClockSelectSet (clk : Clock) (sel : ClockSel) (s : Device) : Device :=
  match clk with
  | Clock.sysclk => { s with sysclkSel := sel }
  | Clock.iadcclk => { s with iadcClkSel := sel }
  | Clock.rtccclk => { s with rtccClkSel := sel }

/-- `disableHFClocks` (lines 269-290): clear the enable bit of the twelve
high-frequency peripherals, switch SYSCLK to FSRCO, then busy-wait until
HFRCODPLL and HFXO are both no longer enabled (status reads supplied in
`hf`); `none` when that wait does not terminate. -/
def disableHFClocks (hf : List (Nat × Nat)) (s : Device) : Option Device :=
  (waitHFStopped hf).map (fun _ =>
    CMU_ClockSelectSet Clock.sysclk ClockSel.fsrco
      { s with periphEn := fun p => if p ∈ hfPeriphs then false else s.periphEn p })

/-- `disableLFClocks` (lines 295-306): clear the enable bit of RTCC, WDOG0,
WDOG1, LETIMER0 and BURTC, then busy-wait while LFRCO and LFXO status are
BOTH nonzero (status reads supplied in `lf`); returns the exit status
reading together with the resulting state. -/
def disableLFClocks (lf : List (Nat × Nat)) (s : Device) :
    Option ((Nat × Nat) × Device) :=
  (waitLFStopped lf).map (fun p =>
    (p.1,
     { s with rtccEn := false,
              periphEn := fun q =>
                if q ∈ [Periph.wdog0, Periph.wdog1, Periph.letimer0, Periph.burtc]
                then false else s.periphEn q }))

/-- `disableClocks` (lines 311-318): disable high-frequency then
low-frequency clocks. -/
def disableClocks (hf lf : List (Nat × Nat)) (s : Device) : Option Device :=
  (disableHFClocks hf s).bind (fun t => (disableLFClocks lf t).map (fun p => p.2))

/-- Modelled from the spec: emlib `RTCC_Init` (vendor SDK, not in the
repository) applies the passed init struct - here `RTCC_INIT_DEFAULT` with
`presc` and `cntWrapOnCCV1` overridden - and, with the default
`enable = true`, enables the RTCC so it is counting ("RTCC: Real-Time
Counter/Calendar peripheral, used here as a low-frequency timekeeping
source during sleep"). -/
def RTCC_Init (presc : Nat) (wrapCCV1 : Bool) (s : Device) : Device :=
  { s with rtccPresc := presc, rtccWrapCCV1 := wrapCCV1, rtccEn := true }

/-- Modelled from the spec: emlib `EMU_RamPowerDown` (vendor SDK, not in the
repository) powers down all RAM blocks except the first ("Power down all RAM
except the first 16 kB block or retain full RAM"). -/
def EMU_RamPowerDown (s : Device) : Device :=
  { s with ramRetained := false }

/-- Modelled from the spec: emlib `EMU_EnterEM2` (vendor SDK, not in the
repository) puts the CPU into energy mode EM2 ("EM2: An energy/sleep mode of
the target microcontroller retaining RAM while disabling most clocks"). -/
def EMU_EnterEM2 (s : Device) : Device :=
  { s with emLevel := 2 }

/-- `em_EM2_RTCC osc powerdownRam` (lines 339-361): disable clocks, route
`osc` to the RTCC clock tree, initialize the RTCC with prescaler 256
(`rtccCntPresc_256`) and `cntWrapOnCCV1 = true`, power down RAM when
`powerdownRam`, then enter EM2.  The oscillator status readings the
clock-disable waits consume are supplied in `hf` and `lf`. -/
def em_EM2_RTCC (osc : ClockSel) (powerdownRam : Bool)
    (hf lf : List (Nat × Nat)) (s : Device) : Option Device :=
  (disableClocks hf lf s).map (fun t =>
    EMU_EnterEM2
      ((fun t2 => if powerdownRam then EMU_RamPowerDown t2 else t2)
        (RTCC_Init 256 true
          (CMU_ClockSelectSet Clock.rtccclk osc t))))

/-- LDMA transfer-unit sizes used by the descriptor. -/
inductive LdmaSize
  | byte
  | halfword
  | word
  deriving DecidableEq, Repr

/-- Source of an LDMA peripheral-to-memory transfer. -/
inductive LdmaSrc
  | iadcSingleFifoData
  | other
  deriving DecidableEq, Repr

/-- The LDMA transfer-descriptor fields `initLDMA` sets (the global
`descriptor` variable, lines 142 and 226-242).  `dst` is the destination
base address (a word index into RAM). -/
structure LdmaDescXfer where
  src : LdmaSrc
  dst : Nat
  size : LdmaSize
  xferCnt : Nat
  decLoopCnt : Nat
  doneIfs : Nat
  ignoreSrec : Nat
  deriving DecidableEq, Repr

/-- Modelled from the spec: `LDMA_DESCRIPTOR_LINKREL_P2M_BYTE` is a vendor
SDK macro (not in the repository) building a peripheral-to-memory transfer
descriptor of `cnt` byte-sized units from `src` to `dst`; its transfer-count,
size, loop, and interrupt fields are all overwritten by `initLDMA`
immediately afterwards, so only `src` and `dst` carry information here. -/
def LDMA_DESCRIPTOR_LINKREL_P2M_BYTE (src : LdmaSrc) (dst : Nat) (cnt : Nat) :
    LdmaDescXfer :=
  { src := src, dst := dst, size := LdmaSize.byte, xferCnt := cnt,
    decLoopCnt := 0, doneIfs := 0, ignoreSrec := 0 }

/-- The descriptor `initLDMA buffer size` builds and stores in the global
`descriptor` (lines 226-242): start from the P2M macro with source
`&IADC0->SINGLEFIFODATA`, then set word-sized units, `decLoopCnt = 1`,
`xferCnt = NUM_SAMPLES`, `doneIfs = 1`, `ignoreSrec = 0`. -/
def initLDMA_descriptor (buffer : Nat) (size : Nat) : LdmaDescXfer :=
  let xfer := LDMA_DESCRIPTOR_LINKREL_P2M_BYTE LdmaSrc.iadcSingleFifoData buffer size
  { xfer with size := LdmaSize.word,
              decLoopCnt := 1,
              xferCnt := NUM_SAMPLES,
              doneIfs := 1,
              ignoreSrec := 0 }

/-- One action of the LDMA engine: store a value at a RAM address, or raise
the channel-done interrupt. -/
inductive LdmaAction
  | store (addr : Nat) (val : Nat)
  | doneIrq
  deriving DecidableEq, Repr

/-- Modelled from the spec: the LDMA engine itself is hardware, not
repository code.  Per the spec ("LDMA: Linked/Direct Memory Access
controller that transfers peripheral data to memory without CPU
involvement") and the source's own comments ("LDMA will sample the IADC
NUM_SAMPLES time, and then interrupt"; "Set descriptor to loop NUM_SAMPLES
times and then complete", with `xferCnt` the number of unit transfers), the
armed channel stores the `i`-th conversion result at `dst + i` for
`i < xferCnt`, in order, and then raises the done interrupt exactly when
`doneIfs = 1`. -/
def ldmaEngineActions (d : LdmaDescXfer) (samples : Nat → Nat) :
    List LdmaAction :=
  (List.range d.xferCnt).map (fun i => LdmaAction.store (d.dst + i) (samples i)) ++
    (if d.doneIfs = 1 then [LdmaAction.doneIrq] else [])

/-- Apply one LDMA engine action to RAM. -/
def applyLdmaAction (ram : Nat → Nat) : LdmaAction → (Nat → Nat)
  | LdmaAction.store addr v => fun a => if a = addr then v else ram a
  | LdmaAction.doneIrq => ram

/-- RAM after the LDMA engine has executed the transfer described by `d`. -/
def ldmaEngineRun (d : LdmaDescXfer) (samples : Nat → Nat) (ram : Nat → Nat) :
    Nat → Nat :=
  (ldmaEngineActions d samples).foldl applyLdmaAction ram

theorem count_buttonRead_map (e : Event) (he : e.isButtonRead = false)
    (reads : List Nat) : (reads.map Event.buttonRead).count e = 0 := by
  rw [List.count_eq_zero]
  intro hmem
  obtain ⟨v, _, hv⟩ := List.mem_map.mp hmem
  rw [← hv] at he
  simp [Event.isButtonRead] at he

theorem filter_not_buttonRead_map (reads : List Nat) :
    (reads.map Event.buttonRead).filter (fun e => !e.isButtonRead) = [] := by
  induction reads with
  | nil => rfl
  | cons v t ih => simp [Event.isButtonRead, ih]

theorem getLast_append_single {α : Type} (l : List α) (a : α) :
    (l ++ [a]).getLast? = some a := by
  rw [List.getLast?_append_cons]
  rfl

theorem waitLFStopped_exit (l : List (Nat × Nat)) (e : Nat × Nat)
    (rest : List (Nat × Nat)) (h : waitLFStopped l = some (e, rest)) :
    e.1 = 0 ∨ e.2 = 0 := by
  induction l with
  | nil => exact absurd h (by simp [waitLFStopped])
  | cons s t ih =>
      by_cases hc : s.1 ≠ 0 ∧ s.2 ≠ 0
      · rw [waitLFStopped, if_pos hc] at h
        exact ih h
      · rw [waitLFStopped, if_neg hc] at h
        have hp : (s, t) = (e, rest) := Option.some.inj h
        have he : s = e := congrArg Prod.fst hp
        rw [← he]
        rcases not_and_or.mp hc with h1 | h2
        · exact Or.inl (not_not.mp h1)
        · exact Or.inr (not_not.mp h2)

theorem disableClocks_spec (hf lf : List (Nat × Nat)) (s t : Device)
    (h : disableClocks hf lf s = some t) :
    t.rtccEn = false ∧ t.ram = s.ram ∧ t.ramRetained = s.ramRetained := by
  rw [disableClocks] at h
  obtain ⟨u, hu, h2⟩ := Option.bind_eq_some.mp h
  obtain ⟨p, hp, h3⟩ := Option.map_eq_some'.mp h2
  rw [disableHFClocks] at hu
  obtain ⟨q, hq, h4⟩ := Option.map_eq_some'.mp hu
  rw [disableLFClocks] at hp
  obtain ⟨w, hw, h5⟩ := Option.map_eq_some'.mp hp
  rw [← h3, ← h5, ← h4]
  simp [CMU_ClockSelectSet]

/-- Whether an LDMA engine action is a memory store. -/
def LdmaAction.isStore : LdmaAction → Bool
  | .store _ _ => true
  | .doneIrq => false

theorem ldmaStores_run (b n : Nat) (samples ram : Nat → Nat) (a : Nat) :
    ((List.range n).map (fun i => LdmaAction.store (b + i) (samples i))).foldl
        applyLdmaAction ram a
      = if b ≤ a ∧ a < b + n then samples (a - b) else ram a := by
  induction n with
  | zero =>
      rw [List.range_zero]
      simp only [List.map_nil, List.foldl_nil]
      rw [if_neg (by omega)]
  | succ n ih =>
      rw [List.range_succ, List.map_append, List.foldl_append]
      simp only [List.map_cons, List.map_nil, List.foldl_cons, List.foldl_nil,
        applyLdmaAction]
      by_cases ha : a = b + n
      · subst ha
        rw [if_pos rfl, if_pos (by omega)]
        congr 1
        omega
      · rw [if_neg ha, ih]
        by_cases hb : b ≤ a ∧ a < b + n
        · rw [if_pos hb, if_pos (by omega)]
        · rw [if_neg hb, if_neg (by omega)]

theorem ldmaEngineRun_eq (buffer size : Nat) (samples ram : Nat → Nat)
    (a : Nat) :
    ldmaEngineRun (initLDMA_descriptor buffer size) samples ram a
      = if buffer ≤ a ∧ a < buffer + NUM_SAMPLES then samples (a - buffer)
        else ram a := by
  rw [ldmaEngineRun, ldmaEngineActions]
  have hd : (initLDMA_descriptor buffer size).xferCnt = NUM_SAMPLES := rfl
  have hdst : (initLDMA_descriptor buffer size).dst = buffer := rfl
  have hdone : (initLDMA_descriptor buffer size).doneIfs = 1 := rfl
  rw [hd, hdst, hdone, if_pos rfl, List.foldl_append]
  simp only [List.foldl_cons, List.foldl_nil, applyLdmaAction]
  exact ldmaStores_run buffer NUM_SAMPLES samples ram a

/-- C2: the LDMA transfer started by `initLDMA` stores exactly `NUM_SAMPLES`
(1024) samples from the IADC single FIFO into the 1024-word destination
buffer (`singleBuffer`, based at `buffer`), writes to no memory outside that
range, and raises the done interrupt exactly once, after the last sample is
stored. -/
theorem ldma_transfer_fills_buffer_exactly (buffer size : Nat)
    (samples ram : Nat → Nat) :
    (∀ i, i < NUM_SAMPLES →
        ldmaEngineRun (initLDMA_descriptor buffer size) samples ram (buffer + i)
          = samples i) ∧
    (∀ a, a < buffer ∨ buffer + NUM_SAMPLES ≤ a →
        ldmaEngineRun (initLDMA_descriptor buffer size) samples ram a = ram a) ∧
    (ldmaEngineActions (initLDMA_descriptor buffer size) samples).countP
        (fun act => act.isStore) = NUM_SAMPLES ∧
    (∀ act ∈ ldmaEngineActions (initLDMA_descriptor buffer size) samples,
        ∀ a v, act = LdmaAction.store a v →
          buffer ≤ a ∧ a < buffer + NUM_SAMPLES) ∧
    (ldmaEngineActions (initLDMA_descriptor buffer size) samples).count
        LdmaAction.doneIrq = 1 ∧
    (ldmaEngineActions (initLDMA_descriptor buffer size) samples).getLast?
      = some LdmaAction.doneIrq := by
  have hact : ldmaEngineActions (initLDMA_descriptor buffer size) samples
      = (List.range NUM_SAMPLES).map
          (fun i => LdmaAction.store (buffer + i) (samples i))
        ++ [LdmaAction.doneIrq] := rfl
  refine ⟨?_, ?_, ?_, ?_, ?_, ?_⟩
  · intro i hi
    rw [ldmaEngineRun_eq, if_pos (by omega)]
    have hsub : buffer + i - buffer = i := by omega
    rw [hsub]
  · intro a ha
    rw [ldmaEngineRun_eq, if_neg (by omega)]
  · rw [hact, List.countP_append]
    have hall : ∀ act ∈ (List.range NUM_SAMPLES).map
        (fun i => LdmaAction.store (buffer + i) (samples i)),
        (fun act => LdmaAction.isStore act) act = true := by
      intro act hmem
      obtain ⟨i, _, hi⟩ := List.mem_map.mp hmem
      rw [← hi]; rfl
    rw [List.countP_eq_length.mpr hall, List.length_map, List.length_range]
    rfl
  · intro act hmem a v hav
    rw [hact] at hmem
    rcases List.mem_append.mp hmem with hmem1 | hmem2
    · obtain ⟨i, hi, hact2⟩ := List.mem_map.mp hmem1
      have hlt : i < NUM_SAMPLES := List.mem_range.mp hi
      have heq := hact2.trans hav
      injection heq with h1 h2
      omega
    · have hdone : act = LdmaAction.doneIrq := by simpa using hmem2
      rw [hav] at hdone
      exact absurd hdone (by simp)
  · rw [hact, List.count_append]
    have h0 : ((List.range NUM_SAMPLES).map
        (fun i => LdmaAction.store (buffer + i) (samples i))).count
          LdmaAction.doneIrq = 0 := by
      rw [List.count_eq_zero]
      intro hmem
      obtain ⟨i, _, hi⟩ := List.mem_map.mp hmem
      exact absurd hi (by simp)
    rw [h0]
    rfl
  · rw [hact]
    exact getLast_append_single _ _

theorem ldma_transfer_fills_buffer_exactly_witness :
    ldmaEngineRun (initLDMA_descriptor 4096 NUM_SAMPLES) (fun i => i + 7)
        (fun _ => 0) (4096 + 10) = 17 ∧
    ldmaEngineRun (initLDMA_descriptor 4096 NUM_SAMPLES) (fun i => i + 7)
        (fun _ => 0) 4095 = 0 :=
  ⟨(ldma_transfer_fills_buffer_exactly 4096 NUM_SAMPLES (fun i => i + 7)
      (fun _ => 0)).1 10 (by decide),
   (ldma_transfer_fills_buffer_exactly 4096 NUM_SAMPLES (fun i => i + 7)
      (fun _ => 0)).2.1 4095 (Or.inl (by decide))⟩

/-- C3: `LDMA_IRQHandler` performs exactly three effects - it clears the
LDMA DONE0 interrupt flag, stops IADC single conversions, and drives GPIO
port B pin 1 high - and leaves every other component of the device state
unchanged. -/
theorem ldma_irq_handler_frame (s : Device) :
    LDMA_IRQHandler s =
      { s with ldmaIF := Nat.ldiff s.ldmaIF LDMA_IF_DONE0,
               iadcSingleActive := false,
               pinB1Out := true } := rfl

/-- Concrete PB0 readings: one released read, the pressed read, one
still-pressed read, the released read. -/
def demoBtn : List Nat := [1, 0, 0, 1]

/-- Concrete HFRCO/HFXO status readings: stopped at the first read. -/
def demoHF : List (Nat × Nat) := [(0, 0)]

/-- Concrete LFRCO/LFXO status readings: stopped at the first read. -/
def demoLF : List (Nat × Nat) := [(0, 0)]

/-- The trace the program produces on the demo inputs. -/
def demoTrace : List Event :=
  [Event.chipInit, Event.pinModeSet GpioPort.portD 2 GpioMode.inputPullFilter 1]
    ++ ([1, 0, 0, 1].map Event.buttonRead) ++ afterButtonEvents
    ++ LDMA_IRQHandler_events ++ [Event.halt]

/-- C1: in every terminating run of `main`, the stages occur in this fixed
order: the PB0 button wait comes first (only button reads between the two
initial GPIO configuration steps and the rest), then the IADC is
initialized, then the LDMA transfer is started, then the IADC timer is
enabled and EM2 entered; the LDMA completion interrupt then drives GPIO
port B pin 1 (LED1) high, and the trace ends in `halt` with nothing after
it. -/
theorem main_pipeline_stage_order (btn : List Nat) (hf lf : List (Nat × Nat))
    (tr : List Event) (h : fullTrace btn hf lf = some tr) :
    (∃ reads : List Nat,
      tr = [Event.chipInit,
            Event.pinModeSet GpioPort.portD 2 GpioMode.inputPullFilter 1]
           ++ reads.map Event.buttonRead
           ++ afterButtonEvents ++ LDMA_IRQHandler_events ++ [Event.halt]) ∧
    [Event.iadcReset, Event.iadcInit, Event.iadcInitSingle,
     Event.ldmaStartTransfer 0, Event.iadcCommand IadcCmd.enableTimer,
     Event.enterEM2, Event.gpioPinOutSet GpioPort.portB 1,
     Event.halt].Sublist
      (afterButtonEvents ++ LDMA_IRQHandler_events ++ [Event.halt]) ∧
    tr.getLast? = some Event.halt := by
  obtain ⟨r1, rest1, r2, rest2, hp, hr, htr⟩ := fullTrace_eq btn hf lf tr h
  refine ⟨⟨r1 ++ r2, htr⟩, by decide, ?_⟩
  rw [htr]
  exact getLast_append_single _ _

theorem main_pipeline_stage_order_witness :
    (∃ reads : List Nat,
      demoTrace = [Event.chipInit,
            Event.pinModeSet GpioPort.portD 2 GpioMode.inputPullFilter 1]
           ++ reads.map Event.buttonRead
           ++ afterButtonEvents ++ LDMA_IRQHandler_events ++ [Event.halt]) ∧
    [Event.iadcReset, Event.iadcInit, Event.iadcInitSingle,
     Event.ldmaStartTransfer 0, Event.iadcCommand IadcCmd.enableTimer,
     Event.enterEM2, Event.gpioPinOutSet GpioPort.portB 1,
     Event.halt].Sublist
      (afterButtonEvents ++ LDMA_IRQHandler_events ++ [Event.halt]) ∧
    demoTrace.getLast? = some Event.halt :=
  main_pipeline_stage_order demoBtn demoHF demoLF demoTrace rfl

/-- C4: the pipeline executes at most once per reset: in every terminating
run the stop-single command, the LDMA transfer start and the EM2 entry each
occur exactly once, and after the stop-single command the only remaining
events are the LED set and the final halt - nothing is ever restarted or
reconfigured. -/
theorem pipeline_one_shot (btn : List Nat) (hf lf : List (Nat × Nat))
    (tr : List Event) (h : fullTrace btn hf lf = some tr) :
    tr.count (Event.iadcCommand IadcCmd.stopSingle) = 1 ∧
    tr.count (Event.ldmaStartTransfer 0) = 1 ∧
    tr.count Event.enterEM2 = 1 ∧
    ∃ pre, tr = pre ++ [Event.iadcCommand IadcCmd.stopSingle,
                        Event.gpioPinOutSet GpioPort.portB 1, Event.halt] := by
  obtain ⟨r1, rest1, r2, rest2, hp, hr, htr⟩ := fullTrace_eq btn hf lf tr h
  subst htr
  refine ⟨?_, ?_, ?_, ?_⟩
  · simp only [List.count_append]
    rw [count_buttonRead_map (Event.iadcCommand IadcCmd.stopSingle) rfl]
    decide
  · simp only [List.count_append]
    rw [count_buttonRead_map (Event.ldmaStartTransfer 0) rfl]
    decide
  · simp only [List.count_append]
    rw [count_buttonRead_map Event.enterEM2 rfl]
    decide
  · refine ⟨[Event.chipInit,
        Event.pinModeSet GpioPort.portD 2 GpioMode.inputPullFilter 1]
        ++ (r1 ++ r2).map Event.buttonRead ++ afterButtonEvents
        ++ [Event.ldmaIntClear LDMA_IF_DONE0], ?_⟩
    simp [LDMA_IRQHandler_events, List.append_assoc]

theorem pipeline_one_shot_witness :
    demoTrace.count (Event.iadcCommand IadcCmd.stopSingle) = 1 ∧
    demoTrace.count (Event.ldmaStartTransfer 0) = 1 ∧
    demoTrace.count Event.enterEM2 = 1 ∧
    ∃ pre, demoTrace = pre ++ [Event.iadcCommand IadcCmd.stopSingle,
                        Event.gpioPinOutSet GpioPort.portB 1, Event.halt] :=
  pipeline_one_shot demoBtn demoHF demoLF demoTrace rfl

/-- C5: no operation in the program produces, inspects, or branches on an
error result: apart from the raw PB0 readings themselves, any two
terminating runs perform the identical sequence of operations, so no
return value of any called routine influences control flow and there is no
retry or recovery path. -/
theorem no_error_observation (btn : List Nat) (hf lf : List (Nat × Nat))
    (btn2 : List Nat) (hf2 lf2 : List (Nat × Nat)) (tr tr2 : List Event)
    (h : fullTrace btn hf lf = some tr)
    (h2 : fullTrace btn2 hf2 lf2 = some tr2) :
    tr.filter (fun e => !e.isButtonRead)
      = tr2.filter (fun e => !e.isButtonRead) := by
  obtain ⟨r1, rest1, r2, rest2, hp, hr, htr⟩ := fullTrace_eq btn hf lf tr h
  obtain ⟨q1, qrest1, q2, qrest2, hq, hqr, htr2⟩ :=
    fullTrace_eq btn2 hf2 lf2 tr2 h2
  subst htr
  subst htr2
  simp only [List.filter_append, filter_not_buttonRead_map]

theorem no_error_observation_witness :
    demoTrace.filter (fun e => !e.isButtonRead)
      = ((fullTrace [0, 2] [(1, 1), (0, 0)] [(0, 9)]).getD []).filter
          (fun e => !e.isButtonRead) :=
  no_error_observation demoBtn demoHF demoLF [0, 2] [(1, 1), (0, 0)] [(0, 9)]
    demoTrace ((fullTrace [0, 2] [(1, 1), (0, 0)] [(0, 9)]).getD []) rfl rfl

/-- C8: `main` proceeds past its startup wait only after PB0 (GPIO port D
pin 2) has first been read as pressed (0), preceded only by released
(nonzero) reads, and then subsequently read as released (nonzero), preceded
only by pressed reads - a full press-and-release; the immediately following
event disables the PB0 pin, and no button read ever occurs afterwards. -/
theorem press_release_gate (btn : List Nat) (hf lf : List (Nat × Nat))
    (tr : List Event) (h : fullTrace btn hf lf = some tr) :
    ∃ r1 rest1 r2 rest2 pre1 pre2 w,
      waitForPress btn = some (r1, rest1) ∧
      waitForRelease rest1 = some (r2, rest2) ∧
      r1 = pre1 ++ [0] ∧ (∀ v ∈ pre1, v ≠ 0) ∧
      r2 = pre2 ++ [w] ∧ w ≠ 0 ∧ (∀ v ∈ pre2, v = 0) ∧
      tr = [Event.chipInit,
            Event.pinModeSet GpioPort.portD 2 GpioMode.inputPullFilter 1]
           ++ (r1 ++ r2).map Event.buttonRead
           ++ (Event.pinModeSet GpioPort.portD 2 GpioMode.disabled 1
               :: (afterDisableEvents ++ LDMA_IRQHandler_events
                    ++ [Event.halt])) ∧
      (afterDisableEvents ++ LDMA_IRQHandler_events ++ [Event.halt]).all
        (fun e => !e.isButtonRead) = true := by
  obtain ⟨r1, rest1, r2, rest2, hp, hr, htr⟩ := fullTrace_eq btn hf lf tr h
  obtain ⟨pre1, hpre1, hall1, _⟩ := waitForPress_spec btn r1 rest1 hp
  obtain ⟨pre2, w, hpre2, hw, hall2, _⟩ := waitForRelease_spec rest1 r2 rest2 hr
  refine ⟨r1, rest1, r2, rest2, pre1, pre2, w, hp, hr, hpre1, hall1, hpre2,
    hw, hall2, ?_, by decide⟩
  rw [htr]
  simp [afterButtonEvents, List.append_assoc]

theorem press_release_gate_witness :
    ∃ r1 rest1 r2 rest2 pre1 pre2 w,
      waitForPress demoBtn = some (r1, rest1) ∧
      waitForRelease rest1 = some (r2, rest2) ∧
      r1 = pre1 ++ [0] ∧ (∀ v ∈ pre1, v ≠ 0) ∧
      r2 = pre2 ++ [w] ∧ w ≠ 0 ∧ (∀ v ∈ pre2, v = 0) ∧
      demoTrace = [Event.chipInit,
            Event.pinModeSet GpioPort.portD 2 GpioMode.inputPullFilter 1]
           ++ (r1 ++ r2).map Event.buttonRead
           ++ (Event.pinModeSet GpioPort.portD 2 GpioMode.disabled 1
               :: (afterDisableEvents ++ LDMA_IRQHandler_events
                    ++ [Event.halt])) ∧
      (afterDisableEvents ++ LDMA_IRQHandler_events ++ [Event.halt]).all
        (fun e => !e.isButtonRead) = true :=
  press_release_gate demoBtn demoHF demoLF demoTrace rfl

/-- C10: in every terminating run, `LDMA_StartTransfer` (inside `initLDMA`)
executes strictly before the `iadcCmdEnableTimer` command that allows
timer-triggered conversions to begin (in fact immediately before it), and
each occurs exactly once, so the DMA channel is armed before the first
conversion can complete. -/
theorem ldma_armed_before_timer_enable (btn : List Nat)
    (hf lf : List (Nat × Nat)) (tr : List Event)
    (h : fullTrace btn hf lf = some tr) :
    tr.count (Event.ldmaStartTransfer 0) = 1 ∧
    tr.count (Event.iadcCommand IadcCmd.enableTimer) = 1 ∧
    ∃ l1 l3, tr = l1 ++ Event.ldmaStartTransfer 0
               :: Event.iadcCommand IadcCmd.enableTimer :: l3 := by
  obtain ⟨r1, rest1, r2, rest2, hp, hr, htr⟩ := fullTrace_eq btn hf lf tr h
  subst htr
  refine ⟨?_, ?_, ?_⟩
  · simp only [List.count_append]
    rw [count_buttonRead_map (Event.ldmaStartTransfer 0) rfl]
    decide
  · simp only [List.count_append]
    rw [count_buttonRead_map (Event.iadcCommand IadcCmd.enableTimer) rfl]
    decide
  · refine ⟨[Event.chipInit,
        Event.pinModeSet GpioPort.portD 2 GpioMode.inputPullFilter 1]
        ++ (r1 ++ r2).map Event.buttonRead
        ++ [Event.pinModeSet GpioPort.portD 2 GpioMode.disabled 1,
            Event.pinModeSet GpioPort.portB 1 GpioMode.pushPull 0,
            Event.em23Init, Event.hfxoInit, Event.hfrcoBandSet]
        ++ initIADC_events ++ [Event.ldmaInit],
      em_EM2_RTCC_events ClockSel.lfrco false
        ++ LDMA_IRQHandler_events ++ [Event.halt], ?_⟩
    simp [afterButtonEvents, afterDisableEvents, initLDMA_events,
      List.append_assoc]

theorem ldma_armed_before_timer_enable_witness :
    demoTrace.count (Event.ldmaStartTransfer 0) = 1 ∧
    demoTrace.count (Event.iadcCommand IadcCmd.enableTimer) = 1 ∧
    ∃ l1 l3, demoTrace = l1 ++ Event.ldmaStartTransfer 0
               :: Event.iadcCommand IadcCmd.enableTimer :: l3 :=
  ldma_armed_before_timer_enable demoBtn demoHF demoLF demoTrace rfl

/-- C6: every call to `em_EM2_RTCC`, for any oscillator argument and either
`powerdownRam` value, routes its oscillator argument to the RTCC clock tree
and initializes the RTCC with prescaler 256 and wrap-on-CCV1 so that the
RTCC is enabled when the CPU enters EM2, even though `disableClocks`
disabled the RTCC earlier in the same call. -/
theorem em2_rtcc_reenables_rtcc (osc : ClockSel) (pd : Bool)
    (hf lf : List (Nat × Nat)) (s t : Device)
    (h : em_EM2_RTCC osc pd hf lf s = some t) :
    t.rtccClkSel = osc ∧ t.rtccPresc = 256 ∧ t.rtccWrapCCV1 = true ∧
    t.rtccEn = true ∧ t.emLevel = 2 ∧
    (∀ u, disableClocks hf lf s = some u → u.rtccEn = false) := by
  rw [em_EM2_RTCC] at h
  obtain ⟨u, hu, ht⟩ := Option.map_eq_some'.mp h
  refine ⟨?_, ?_, ?_, ?_, ?_,
    fun u2 hu2 => (disableClocks_spec hf lf s u2 hu2).1⟩ <;>
    (rw [← ht]
     cases pd <;>
       simp [EMU_EnterEM2, EMU_RamPowerDown, RTCC_Init, CMU_ClockSelectSet])

theorem em2_rtcc_reenables_rtcc_witness :
    ∃ t, em_EM2_RTCC ClockSel.lfxo true demoHF demoLF resetDevice = some t ∧
      t.rtccClkSel = ClockSel.lfxo ∧ t.rtccPresc = 256 ∧ t.rtccEn = true ∧
      t.emLevel = 2 :=
  ⟨_, rfl,
   (em2_rtcc_reenables_rtcc ClockSel.lfxo true demoHF demoLF resetDevice
      _ rfl).1,
   (em2_rtcc_reenables_rtcc ClockSel.lfxo true demoHF demoLF resetDevice
      _ rfl).2.1,
   (em2_rtcc_reenables_rtcc ClockSel.lfxo true demoHF demoLF resetDevice
      _ rfl).2.2.2.1,
   (em2_rtcc_reenables_rtcc ClockSel.lfxo true demoHF demoLF resetDevice
      _ rfl).2.2.2.2.1⟩

/-- C7: the program's single call to `em_EM2_RTCC` passes
`powerdownRam = false`, so `EMU_RamPowerDown` is never invoked (no
`ramPowerDown` event ever occurs in any terminating run) and RAM -
including the sample buffer - remains powered and unchanged across the
call. -/
theorem em2_ram_retained (osc : ClockSel) (hf lf : List (Nat × Nat))
    (s t : Device) (h : em_EM2_RTCC osc false hf lf s = some t) :
    t.ram = s.ram ∧ t.ramRetained = s.ramRetained ∧
    ∀ btn hf2 lf2 tr, fullTrace btn hf2 lf2 = some tr →
      Event.ramPowerDown ∉ tr := by
  rw [em_EM2_RTCC] at h
  obtain ⟨u, hu, ht⟩ := Option.map_eq_some'.mp h
  obtain ⟨_, hram, hret⟩ := disableClocks_spec hf lf s u hu
  refine ⟨?_, ?_, ?_⟩
  · rw [← ht]
    simpa [EMU_EnterEM2, RTCC_Init, CMU_ClockSelectSet] using hram
  · rw [← ht]
    simpa [EMU_EnterEM2, RTCC_Init, CMU_ClockSelectSet] using hret
  · intro btn hf2 lf2 tr htr hmem
    obtain ⟨r1, rest1, r2, rest2, hp, hr, heq⟩ := fullTrace_eq btn hf2 lf2 tr htr
    have hcount : tr.count Event.ramPowerDown = 0 := by
      rw [heq]
      simp only [List.count_append]
      rw [count_buttonRead_map Event.ramPowerDown rfl]
      decide
    exact (List.count_eq_zero.mp hcount) hmem

theorem em2_ram_retained_witness :
    ∃ t, em_EM2_RTCC ClockSel.lfrco false demoHF demoLF resetDevice = some t ∧
      t.ram = resetDevice.ram ∧ t.ramRetained = resetDevice.ramRetained :=
  ⟨_, rfl,
   (em2_ram_retained ClockSel.lfrco demoHF demoLF resetDevice _ rfl).1,
   (em2_ram_retained ClockSel.lfrco demoHF demoLF resetDevice _ rfl).2.1⟩

/-- C9: when `disableLFClocks` returns, its exit status reading shows at
least one of LFRCO and LFXO stopped (status 0), but not necessarily both:
because the wait loop joins the two status tests with logical AND, there
are runs that exit with LFXO still reporting a nonzero status. -/
theorem disableLFClocks_exit_condition :
    (∀ lf s e t, disableLFClocks lf s = some (e, t) → e.1 = 0 ∨ e.2 = 0) ∧
    (∃ lf s e t, disableLFClocks lf s = some (e, t) ∧ e.1 = 0 ∧ e.2 ≠ 0) := by
  constructor
  · intro lf s e t h
    rw [disableLFClocks] at h
    obtain ⟨⟨w, rest⟩, hw, heq⟩ := Option.map_eq_some'.mp h
    have he : w = e := congrArg Prod.fst heq
    rw [← he]
    exact waitLFStopped_exit lf w rest hw
  · exact ⟨[(0, 5)], resetDevice, (0, 5), _, rfl, rfl, by decide⟩

theorem disableLFClocks_exit_condition_witness :
    (∃ t, disableLFClocks [(0, 5)] resetDevice = some ((0, 5), t)) ∧
    ((0 : Nat) = 0 ∨ (5 : Nat) = 0) :=
  ⟨⟨_, rfl⟩,
   disableLFClocks_exit_condition.1 [(0, 5)] resetDevice (0, 5) _ rfl⟩
